import Mathlib

/-!
Verification model of the `validate-tcx-deploy-script` repository
(deployment-script/repository reconciliation engine, Go).

Strings are modelled as `List Char` (`Str`), which matches Go's byte/rune
strings for the ASCII data this program manipulates.  Each Lean definition
is a direct translation of the Go function of the same name; the mutable
package-level maps of the Go code become explicit state that is threaded
through the functions.
-/

set_option autoImplicit false

namespace TcxValidate

/-- Strings as lists of characters. -/
abbrev Str := List Char

/-- Whether `p` occurs at the very beginning of `s`. -/
def isPre : Str → Str → Bool
  | [], _ => true
  | _ :: _, [] => false
  | a :: p, b :: s => a = b && isPre p s

/-- Remove `p` from the front of `s` when it occurs there (Go `strings.TrimPrefix`). -/
def dropPre (p s : Str) : Str :=
  if isPre p s then s.drop p.length else s

/-- Whether `p` occurs at the very end of `s`. -/
def isSuf (p s : Str) : Bool :=
  isPre p.reverse s.reverse

/-- Remove `p` from the end of `s` when it occurs there (Go `strings.TrimSuffix`). -/
def dropSuf (p s : Str) : Str :=
  if isSuf p s then s.take (s.length - p.length) else s

/-- Whether `pat` occurs as a contiguous substring of `s` (Go `strings.Contains`,
also the effect of matching a literal regular expression against `s`). -/
def containsStr (s pat : Str) : Bool :=
  match s with
  | [] => pat.isEmpty
  | _ :: t => isPre pat s || containsStr t pat

/-- Whether the character `c` occurs in `s` (Go `strings.Contains` with a
one-character pattern). -/
def hasChar (s : Str) (c : Char) : Bool :=
  match s with
  | [] => false
  | a :: t => if a = c then true else hasChar t c

/-- Boolean membership of a string in a list of strings (Go set-typed maps
`map[string]bool` / `map[string]struct` use exactly string equality). -/
def memb (x : Str) : List Str → Bool
  | [] => false
  | y :: t => if x = y then true else memb x t

/-- The ASCII white-space characters recognised by Go's `unicode.IsSpace`
(the scripts processed by the tool are ASCII). -/
def isWS (c : Char) : Bool :=
  c = ' ' || c = '\t' || c = '\n' || c = '\r' || c = '\x0b' || c = '\x0c'

/-- Drop leading white space. -/
def trimL (s : Str) : Str := s.dropWhile isWS

/-- Go `strings.TrimSpace`: drop leading and trailing white space. -/
def trimStr (s : Str) : Str := ((trimL s.reverse).reverse).dropWhile isWS

/-- Worker for `fields`: `cur` is the word currently being scanned, reversed. -/
def fieldsGo : Str → Option Str → List Str
  | [], none => []
  | [], some w => [w.reverse]
  | c :: t, none => if isWS c then fieldsGo t none else fieldsGo t (some [c])
  | c :: t, some w =>
    if isWS c then w.reverse :: fieldsGo t none else fieldsGo t (some (c :: w))

/-- Go `strings.Fields`: the maximal runs of non-white-space characters. -/
def fields (s : Str) : List Str := fieldsGo s none

/-- Go `strings.ToLower` for ASCII data. -/
def lowerStr (s : Str) : Str := s.map Char.toLower

/-- Go `strings.Split(line, ",")`: the pieces between commas; the empty
string splits to one empty column. -/
def splitComma : Str → List Str
  | [] => [[]]
  | c :: t =>
    match splitComma t with
    | h :: r => if c = ',' then [] :: h :: r else (c :: h) :: r
    | [] => [[c]]

/-- Worker for `replaceAll`, with fuel bounding the scan length. -/
def replaceAllGo (old new : Str) : Nat → Str → Str
  | 0, s => s
  | _ + 1, [] => []
  | fuel + 1, s@(c :: t) =>
    if isPre old s then new ++ replaceAllGo old new fuel (s.drop old.length)
    else c :: replaceAllGo old new fuel t

/-- Go `strings.ReplaceAll`.  The engine only ever calls it with `old` either
empty (in which case, with `new` also empty, the string is unchanged) or a
single separator character. -/
def replaceAll (s old new : Str) : Str :=
  match old with
  | [] => s
  | _ :: _ => replaceAllGo old new s.length s

/-- Decimal rendering of a line number, as produced by Go's `%d` verb. -/
def natToStr (n : Nat) : Str := (Nat.repr n).toList

/-- Go `filepath.Join` restricted to the two-argument joins the engine
performs.  The `Clean` normalisation of Go (duplicate separators, dot
segments) is not modelled, as no claim observes the joined value. -/
def filepathJoin (a b : Str) : Str :=
  if a.isEmpty then b else if b.isEmpty then a else a ++ "/".toList ++ b

/-! ## syntax.go : line parsing, separator validation, executable tracking -/

/-- The `"windows"` literal. -/
def winS : Str := "windows".toList

/-- The `"linux"` literal. -/
def linS : Str := "linux".toList

/-- The regular expression `-flagname` compiled by `initializeRegexPatterns`
is a literal: it matches iff the text `-<flagname>` occurs in the line. -/
def flagPat (flagName : Str) : Str := "-".toList ++ flagName

/-- Try the anchored pattern `-<flag>="([^"]+)"` at the start of `s`,
returning the captured group: after the literal head, the capture is the
maximal non-empty run of non-quote characters, which must be followed by a
closing quote. -/
def matchValueAt (flagName s : Str) : Option Str :=
  if isPre (flagPat flagName ++ "=\"".toList) s then
    let rest := s.drop (flagPat flagName ++ "=\"".toList).length
    let v := rest.takeWhile (fun c => !(c = '"'))
    if v.isEmpty then none
    else if (rest.drop v.length).head? = some '"' then some v else none
  else none

/-- Go `regexp.FindStringSubmatch` for `-<flag>="([^"]+)"`: the capture of
the leftmost match, scanning start positions left to right. -/
def findValue (flagName : Str) : Str → Option Str
  | [] => none
  | s@(_ :: t) =>
    match matchValueAt flagName s with
    | some v => some v
    | none => findValue flagName t

/-- The formatted error of `validatePathSeparators` for a Windows-targeted
script whose path contains forward slashes. -/
def winSepMsg (lineNumber : Nat) (filePath : Str) : Str :=
  "line ".toList ++ (natToStr lineNumber ++ (": path '".toList ++ (filePath ++
    "' contains forward slashes (/) but script targets Windows (use \\)".toList)))

/-- The formatted error of `validatePathSeparators` for a Linux-targeted
script whose path contains backslashes. -/
def linSepMsg (lineNumber : Nat) (filePath : Str) : Str :=
  "line ".toList ++ (natToStr lineNumber ++ (": path '".toList ++ (filePath ++
    "' contains backslashes (\\) but script targets Linux (use /)".toList)))

/-- `validatePathSeparators` from syntax.go: `some msg` is the Go `error`
return, `none` is `nil`. -/
def validatePathSeparators (filePath : Str) (targetOS : Str) (lineNumber : Nat) : Option Str :=
  let hasBackslash := hasChar filePath '\\'
  let hasForwardSlash := hasChar filePath '/'
  if targetOS = winS then
    if hasForwardSlash then some (winSepMsg lineNumber filePath) else none
  else if targetOS = linS then
    if hasBackslash then some (linSepMsg lineNumber filePath) else none
  else none

/-- The fixed deny-list `shellCommands` of syntax.go. -/
def shellCommands : List Str :=
  ["echo".toList, "cd".toList, "mkdir".toList, "rm".toList, "cp".toList, "mv".toList,
   "chmod".toList, "chown".toList, "export".toList, "set".toList, "pwd".toList,
   "ls".toList, "dir".toList, "del".toList, "copy".toList, "move".toList,
   "rem".toList, "@echo".toList, "call".toList, "if".toList, "for".toList, "goto".toList,
   "pushd".toList, "popd".toList, "exit".toList, "return".toList]

/-- The suffix of `s` after the last `/` or `\` (Go `strings.LastIndexAny`
followed by slicing); `s` itself when no separator occurs. -/
def baseAfterSep (s : Str) : Str :=
  (s.reverse.takeWhile (fun c => !(c = '/' || c = '\\'))).reverse

/-- `extractExecutableName` from syntax.go. -/
def extractExecutableName (line0 : Str) : Str :=
  let line := trimStr line0
  if line.isEmpty || isPre ("#".toList) line || isPre ("REM".toList) line ||
      isPre ("rem".toList) line then []
  else
    match fields line with
    | [] => []
    | cmd0 :: _ =>
      if hasChar cmd0 '=' then []
      else
        let cmd1 := dropPre ("@".toList) cmd0
        let cmd2 := baseAfterSep cmd1
        if isPre ("$".toList) cmd2 || isPre ("%".toList) cmd2 then []
        else
          let cmd3 := lowerStr cmd2
          if memb cmd3 shellCommands then []
          else dropSuf (".sh".toList) (dropSuf (".bat".toList) (dropSuf (".exe".toList) cmd3))

/-- The package-level map `scriptExecutables : map[string]map[string]bool`,
as an association list from script file name to its set of executables. -/
abbrev Registry := List (Str × List Str)

/-- Set insertion (`m[e] = true` on a Go `map[string]bool` used as a set);
the list is kept duplicate free. -/
def setInsert (s : List Str) (e : Str) : List Str :=
  if memb e s then s else s ++ [e]

/-- Record executable `e` against script `f` in the registry. -/
def regInsert : Registry → Str → Str → Registry
  | [], f, e => [(f, [e])]
  | (g, es) :: r, f, e =>
    if g = f then (g, setInsert es e) :: r else (g, es) :: regInsert r f e

/-- `trackExecutable` from syntax.go. -/
def trackExecutable (reg : Registry) (scriptFile line : Str) : Registry :=
  let executable := extractExecutableName line
  if executable.isEmpty then reg else regInsert reg scriptFile executable

/-- The `StyleSheetImport` record of main.go. -/
structure StyleSheetImport where
  Line : Str
  InputFile : Str
  XMLsFilepath : Str
deriving DecidableEq, Repr

/-- The literal matched by `stylesheetUtilityRegex`. -/
def stylesheetUtil : Str := "install_xml_stylesheet_datasets".toList

/-- One alternative of `stylesheetFlagsRegex` matched at the current
position: the length in characters of the whole match `-<flag>="<v>"`. -/
def ssMatchLen (flagName v : Str) : Nat :=
  (flagPat flagName ++ "=\"".toList).length + v.length + 1

/-- Go `FindAllStringSubmatch` over `-input="([^"]+)"|-filepath="([^"]+)"`
followed by the loop of `isStylesheetImportLine` that keeps the last
non-empty capture of each group.  Scanning is left to right and
non-overlapping: after a match the scan resumes past it.  `fuel` bounds the
scan by the length of the text. -/
def ssScan : Nat → Str → Str × Str → Str × Str
  | 0, _, acc => acc
  | _ + 1, [], acc => acc
  | fuel + 1, s@(_ :: t), (inp, fp) =>
    match matchValueAt ("input".toList) s with
    | some v => ssScan fuel (s.drop (ssMatchLen ("input".toList) v)) (v, fp)
    | none =>
      match matchValueAt ("filepath".toList) s with
      | some v => ssScan fuel (s.drop (ssMatchLen ("filepath".toList) v)) (inp, v)
      | none => ssScan fuel t (inp, fp)

/-- `isStylesheetImportLine` from syntax.go: the boolean is the utility-name
test; the extracted `-input` and `-filepath` values are returned alongside
(empty when the flag is absent, as the Go out-parameters start empty). -/
def isStylesheetImportLine (line : Str) : Bool :=
  containsStr line stylesheetUtil

/-- The `-input` and `-filepath` values written through the out-parameters
of `isStylesheetImportLine`. -/
def stylesheetFlagValues (line : Str) : Str × Str :=
  ssScan line.length line ([], [])

/-- The per-script `Lines` record of main.go.  The Go `map[int]...` fields
become association lists from line number to entry; a line number occurs at
most once since the scanner numbers lines consecutively. -/
structure Lines where
  Valid : List (Nat × Str)
  StyleSheetImport : List (Nat × StyleSheetImport)
  Invalid : List (Nat × Str)
  Skipped : List (Nat × Str)
  Missing : List Str
deriving DecidableEq, Repr

/-- The fresh `Lines` value created for each script at the top of `Run`. -/
def emptyLines : Lines := ⟨[], [], [], [], []⟩

/-- Lookup in an association list keyed by line number (Go map indexing). -/
def alookup {α : Type} (m : List (Nat × α)) (k : Nat) : Option α :=
  match m with
  | [] => none
  | (j, v) :: t => if j = k then some v else alookup t k

/-- The `for _, flagName := range pathParameters` loop of
`parseLineAsCommand`.  Returns the updated record together with the final
value of `skipLine` (`true` when no configured flag occurred in the line;
each classifying branch of the Go loop ends in `break`, which the
translation renders by returning without recursing). -/
def processFlags (flags : List Str) (targetOS line : Str) (lineNumber : Nat)
    (r : Lines) : Lines × Bool :=
  match flags with
  | [] => (r, true)
  | flagName :: rest =>
    if containsStr line (flagPat flagName) then
      match findValue flagName line with
      | none =>
        ({ r with Invalid := (lineNumber, line) :: r.Invalid }, false)
      | some filePath =>
        match validatePathSeparators filePath targetOS lineNumber with
        | some msg =>
          ({ r with Invalid :=
              (lineNumber, line ++ " [".toList ++ msg ++ "]".toList) :: r.Invalid }, false)
        | none =>
          let r1 := { r with Valid := (lineNumber, filePath) :: r.Valid }
          let r2 :=
            if isStylesheetImportLine line then
              { r1 with StyleSheetImport :=
                  (lineNumber,
                    ⟨line, (stylesheetFlagValues line).1, (stylesheetFlagValues line).2⟩)
                  :: r1.StyleSheetImport }
            else r1
          (r2, false)
    else processFlags rest targetOS line lineNumber r

/-- `parseLineAsCommand` from syntax.go: tracks the executable, then runs
the flag loop, and files the line under `Skipped` when no flag occurred. -/
def parseLineAsCommand (flags : List Str) (targetOS scriptFile line : Str)
    (lineNumber : Nat) (r : Lines) (reg : Registry) : Lines × Registry :=
  let reg1 := trackExecutable reg scriptFile line
  let (r1, skipLine) := processFlags flags targetOS line lineNumber r
  if skipLine then
    ({ r1 with Skipped := (lineNumber, line) :: r1.Skipped }, reg1)
  else (r1, reg1)

/-- The scanner loop of `checkFileSyntax`: lines are numbered from
`lineNumber` upwards, blank lines (empty after trimming) are skipped
without classification. -/
def processScriptLines (flags : List Str) (targetOS scriptFile : Str) :
    List Str → Nat → Lines → Registry → Lines × Registry
  | [], _, r, reg => (r, reg)
  | line :: rest, lineNumber, r, reg =>
    if (trimStr line).isEmpty then
      processScriptLines flags targetOS scriptFile rest (lineNumber + 1) r reg
    else
      let (r1, reg1) := parseLineAsCommand flags targetOS scriptFile line lineNumber r reg
      processScriptLines flags targetOS scriptFile rest (lineNumber + 1) r1 reg1

/-- `checkFileSyntax` from syntax.go, applied to the lines read from the
script file: the analysis starts from the fresh record created by `Run` and
the ambient executable registry; line numbering starts at 1. -/
def checkFileSyntax (flags : List Str) (targetOS scriptFile : Str)
    (content : List Str) (reg : Registry) : Lines × Registry :=
  processScriptLines flags targetOS scriptFile content 1 emptyLines reg

/-! ## syntax.go : script parity check -/

/-- The `scriptDefinition` configuration record. -/
structure scriptDefinition where
  Filename : Str
  TargetOS : Str
deriving DecidableEq, Repr

/-- Reading `scriptExecutables[f]` (the executables tracked for script `f`;
an absent script yields the empty set, as ranging over a nil Go map). -/
def regLookup : Registry → Str → List Str
  | [], _ => []
  | (g, es) :: r, f => if g = f then es else regLookup r f

/-- Union of the executable sets of the named scripts (the nested
`for … range` loops of `checkScriptParity` inserting into a fresh set). -/
def unionExecs (reg : Registry) (names : List Str) : List Str :=
  names.foldl (fun acc f => (regLookup reg f).foldl setInsert acc) []

/-- Lexicographic comparison on `Str`, the order of Go `sort.Strings` for
ASCII data. -/
def strLe (a b : Str) : Bool := decide (a ≤ b)

/-- Insert into a sorted list. -/
def sInsert (x : Str) : List Str → List Str
  | [] => [x]
  | y :: t => if strLe x y then x :: y :: t else y :: sInsert x t

/-- Insertion sort realising Go's `sort.Strings`. -/
def sortStr : List Str → List Str
  | [] => []
  | x :: t => sInsert x (sortStr t)

/-- Go `strings.Join(list, ", ")`. -/
def joinCommaSp : List Str → Str
  | [] => []
  | [x] => x
  | x :: y :: t => x ++ ", ".toList ++ joinCommaSp (y :: t)

/-- The windows-side script names (`windowsScripts` in `checkScriptParity`). -/
def windowsScriptNames (scripts : List scriptDefinition) : List Str :=
  (scripts.filter (fun s => s.TargetOS = winS)).map scriptDefinition.Filename

/-- The linux-side script names (`linuxScripts` in `checkScriptParity`). -/
def linuxScriptNames (scripts : List scriptDefinition) : List Str :=
  (scripts.filter (fun s => s.TargetOS = linS)).map scriptDefinition.Filename

/-- `missingInLinux` of `checkScriptParity` before sorting: executables in
the Windows union but not in the Linux union. -/
def missingInLinux (scripts : List scriptDefinition) (reg : Registry) : List Str :=
  (unionExecs reg (windowsScriptNames scripts)).filter
    (fun e => !(memb e (unionExecs reg (linuxScriptNames scripts))))

/-- `missingInWindows` of `checkScriptParity` before sorting. -/
def missingInWindows (scripts : List scriptDefinition) (reg : Registry) : List Str :=
  (unionExecs reg (linuxScriptNames scripts)).filter
    (fun e => !(memb e (unionExecs reg (windowsScriptNames scripts))))

/-- The fixed text of the windows-side parity error line, with the logger's
placeholder already substituted by the joined list. -/
def winMissingHeader : Str :=
  "Executables in Windows script(s) but missing in Linux script(s): ".toList

/-- The fixed text of the linux-side parity error line. -/
def linMissingHeader : Str :=
  "Executables in Linux script(s) but missing in Windows script(s): ".toList

/-- `checkScriptParity` from syntax.go, returning the list of error lines
it reports (zero, one or two lines). -/
def checkScriptParity (scripts : List scriptDefinition) (reg : Registry) : List Str :=
  if scripts.length < 2 then []
  else if (windowsScriptNames scripts).isEmpty || (linuxScriptNames scripts).isEmpty then []
  else
    (if (missingInLinux scripts reg).isEmpty then []
     else [winMissingHeader ++ joinCommaSp (sortStr (missingInLinux scripts reg))]) ++
    (if (missingInWindows scripts reg).isEmpty then []
     else [linMissingHeader ++ joinCommaSp (sortStr (missingInWindows scripts reg))])

/-! ## content.go : directory-content comparison -/

/-- The `valueSet` of `compareFilesWithScripts`: the set of path values of
the valid-line map (membership is string equality, as in the Go
`map[string]struct` set). -/
def valueSetOf (validLines : List (Nat × Str)) : List Str :=
  validLines.map Prod.snd

/-- The reporting loop of `compareFilesWithScripts`: every collected file
absent from the value set is logged as an orphan error, in collection
order. -/
def orphanScan (valueSet : List Str) : List Str → List Str
  | [] => []
  | item :: rest =>
    if memb item valueSet then orphanScan valueSet rest
    else item :: orphanScan valueSet rest

/-- `compareFilesWithScripts` from content.go, as the list of orphaned
files it reports (directory traversal, which merely produces `filesFound`,
is I/O outside the model). -/
def compareFilesWithScripts (validLines : List (Nat × Str)) (filesFound : List Str) : List Str :=
  orphanScan (valueSetOf validLines) filesFound

/-! ## stylesheetImport.go : manifest processing -/

/-- The `FilePathInfo` record of stylesheetImport.go. -/
structure FilePathInfo where
  RelativePath : Str
  AbsolutePath : Str
deriving DecidableEq, Repr

/-- Outcome of reading a stylesheet manifest: the extracted XML references
keyed by manifest line number, and the lines logged as malformed (the Go
code logs the line text; the number records the iteration at which the
error was logged). -/
structure ManifestOutcome where
  entries : List (Nat × FilePathInfo)
  malformed : List (Nat × Str)
deriving DecidableEq, Repr

/-- The scanner loop of `processStylesheetInputFile` / `checkStylesheetPaths`:
every line read (the counter increments whether or not the line is empty) is
split on commas; with at least two columns the second column, trimmed, names
the XML file; otherwise the line is logged as malformed and yields no entry. -/
def processManifestLines (xmlsFilepath cf ct : Str) :
    List Str → Nat → ManifestOutcome
  | [], _ => ⟨[], []⟩
  | line :: rest, n =>
    let r := processManifestLines xmlsFilepath cf ct rest (n + 1)
    match splitComma line with
    | _ :: c1 :: _ =>
      let filePath := replaceAll xmlsFilepath cf ct
      let fileName := trimStr c1
      ⟨(n, ⟨fileName, filepathJoin filePath fileName⟩) :: r.entries, r.malformed⟩
    | _ => ⟨r.entries, (n, line) :: r.malformed⟩

/-! ## main.go : the per-script loop of `Run` -/

/-- `determinePathConversion` from utils.go (`runtime.GOOS` is passed in as
`runtimeOS`): `Except` carries the Go error for an invalid target OS. -/
def determinePathConversion (runtimeOS targetOS scriptFilename : Str) :
    Except Str (Str × Str) :=
  if !(targetOS = linS) && !(targetOS = winS) then
    Except.error ("incorrect specification of script target_os for ".toList ++
      scriptFilename ++ ": must be linux or windows".toList)
  else if targetOS = winS && runtimeOS = linS then Except.ok ("\\".toList, "/".toList)
  else if targetOS = linS && runtimeOS = winS then Except.ok ("/".toList, "\\".toList)
  else Except.ok ([], [])

/-- Observable state of `analyzer.Run`: the per-script analysis results
(`analysisResult.File`), the executable registry, the package-level
conversion pair `convertFrom`/`convertTo`, the conversion pair in effect at
the time of each script's filesystem checks, and the count of invalid
target-OS errors logged. -/
structure RunState where
  resultFiles : List (Str × Lines)
  execs : Registry
  convertFrom : Str
  convertTo : Str
  checks : List (Str × Str × Str)
  targetOSErrors : Nat
deriving DecidableEq, Repr

/-- The initial state of a run: empty maps and empty conversion pair (the
zero values of the Go package-level variables). -/
def initRunState : RunState :=
  ⟨[], [], [], [], [], 0⟩

/-- The `for _, script := range params.Scripts` loop of `Run`.  `contents`
maps a script filename to its lines (`none`: the file cannot be opened, in
which case `checkFileSyntax` only logs and returns).  For each script the
syntax check runs first; then the target-OS chain assigns the conversion
pair — leaving it unchanged when target and runtime OS coincide — or, for
an invalid target OS, logs an error and exits the loop (`break`); finally
the filesystem checks run under the current conversion pair, which is
recorded in `checks`. -/
def runLoop (runtimeOS : Str) (flags : List Str) (contents : List (Str × List Str)) :
    List scriptDefinition → RunState → RunState
  | [], st => st
  | s :: rest, st =>
    let (lns, reg1) :=
      match (contents.find? (fun p => p.1 = s.Filename)).map Prod.snd with
      | none => (emptyLines, st.execs)
      | some ls => checkFileSyntax flags s.TargetOS s.Filename ls st.execs
    let st1 := { st with resultFiles := (s.Filename, lns) :: st.resultFiles, execs := reg1 }
    if s.TargetOS = winS && runtimeOS = linS then
      let st2 := { st1 with convertFrom := "\\".toList, convertTo := "/".toList }
      runLoop runtimeOS flags contents rest
        { st2 with checks := (s.Filename, st2.convertFrom, st2.convertTo) :: st2.checks }
    else if s.TargetOS = linS && runtimeOS = winS then
      let st2 := { st1 with convertFrom := "/".toList, convertTo := "\\".toList }
      runLoop runtimeOS flags contents rest
        { st2 with checks := (s.Filename, st2.convertFrom, st2.convertTo) :: st2.checks }
    else if !(s.TargetOS = linS) && !(s.TargetOS = winS) then
      { st1 with targetOSErrors := st1.targetOSErrors + 1 }
    else
      runLoop runtimeOS flags contents rest
        { st1 with checks := (s.Filename, st1.convertFrom, st1.convertTo) :: st1.checks }

/-! ## Basic lemmas about the string and map primitives -/

theorem memb_iff_mem (x : Str) (l : List Str) : memb x l = true ↔ x ∈ l := by
  induction l with
  | nil => simp [memb]
  | cons y t ih =>
    by_cases h : x = y
    · subst h; simp [memb]
    · simp [memb, h, ih]

theorem alookup_head {α : Type} (n : Nat) (v : α) (m : List (Nat × α)) :
    alookup ((n, v) :: m) n = some v := by
  simp [alookup]

theorem alookup_cons_ne {α : Type} (n k : Nat) (v : α) (m : List (Nat × α))
    (h : n ≠ k) : alookup ((n, v) :: m) k = alookup m k := by
  simp [alookup, h]

theorem isPre_append_self (p t : Str) : isPre p (p ++ t) = true := by
  induction p with
  | nil => simp [isPre]
  | cons a p ih => simp [isPre, ih]

theorem containsStr_of_isPre (s pat : Str) (h : isPre pat s = true) :
    containsStr s pat = true := by
  cases s with
  | nil =>
    cases pat with
    | nil => simp [containsStr]
    | cons a p => simp [isPre] at h
  | cons c t => simp [containsStr, h]

theorem containsStr_append_left (a s pat : Str) (h : containsStr s pat = true) :
    containsStr (a ++ s) pat = true := by
  induction a with
  | nil => simpa using h
  | cons c t ih => simp [containsStr, ih]

theorem hasChar_iff_mem (s : Str) (c : Char) : hasChar s c = true ↔ c ∈ s := by
  induction s with
  | nil => simp [hasChar]
  | cons a t ih =>
    by_cases h : a = c
    · subst h; simp [hasChar]
    · have h' : ¬ (c = a) := fun e => h e.symm
      simp [hasChar, h, ih, h']

theorem takeWhile_all {p : Char → Bool} (l : Str) (h : ∀ a ∈ l, p a = true) :
    l.takeWhile p = l := by
  induction l with
  | nil => simp
  | cons a t ih =>
    have ha := h a (by simp)
    have ht : t.takeWhile p = t := ih (fun b hb => h b (List.mem_cons_of_mem a hb))
    simp [List.takeWhile, ha, ht]

theorem baseAfterSep_id (s : Str) (h1 : hasChar s '/' = false)
    (h2 : hasChar s '\\' = false) : baseAfterSep s = s := by
  have hmem : ∀ a ∈ s.reverse, (!(a = '/' || a = '\\')) = true := by
    intro a ha
    rw [List.mem_reverse] at ha
    have k1 : ¬ ('/' ∈ s) := by
      intro hc; rw [← hasChar_iff_mem] at hc; rw [h1] at hc; cases hc
    have k2 : ¬ ('\\' ∈ s) := by
      intro hc; rw [← hasChar_iff_mem] at hc; rw [h2] at hc; cases hc
    have na : ¬ (a = '/') := fun e => k1 (e ▸ ha)
    have nb : ¬ (a = '\\') := fun e => k2 (e ▸ ha)
    simp [na, nb]
  unfold baseAfterSep
  rw [takeWhile_all s.reverse hmem, List.reverse_reverse]

theorem hasChar_drop (s : Str) (c : Char) (k : Nat) (h : hasChar s c = false) :
    hasChar (s.drop k) c = false := by
  by_contra hc
  have : hasChar (s.drop k) c = true := by
    cases hx : hasChar (s.drop k) c
    · exact absurd hx hc
    · rfl
  rw [hasChar_iff_mem] at this
  have : c ∈ s := List.mem_of_mem_drop this
  rw [← hasChar_iff_mem] at this
  rw [h] at this; cases this

/-! ## Lemmas about the flag loop and the per-line state machine -/

theorem processFlags_all_miss (os line : Str) (n : Nat) (r : Lines) :
    ∀ flags : List Str, (∀ f ∈ flags, containsStr line (flagPat f) = false) →
    processFlags flags os line n r = (r, true) := by
  intro flags h
  induction flags with
  | nil => rfl
  | cons f rest ih =>
    have hf := h f (by simp)
    simp [processFlags, hf]
    exact ih (fun g hg => h g (List.mem_cons_of_mem f hg))

theorem processFlags_first (os line : Str) (n : Nat) (r : Lines)
    (pre post : List Str) (f : Str)
    (hpre : ∀ g ∈ pre, containsStr line (flagPat g) = false)
    (hf : containsStr line (flagPat f) = true) :
    processFlags (pre ++ f :: post) os line n r = processFlags [f] os line n r := by
  induction pre with
  | nil => simp [processFlags, hf]
  | cons g pre ih =>
    have hg := hpre g (by simp)
    simp only [List.cons_append, processFlags, hg]
    simp only [Bool.false_eq_true, if_false]
    exact ih (fun g' hg' => hpre g' (List.mem_cons_of_mem g hg'))

theorem processFlags_single_noval (os line : Str) (n : Nat) (r : Lines) (f : Str)
    (hf : containsStr line (flagPat f) = true)
    (hv : findValue f line = none) :
    processFlags [f] os line n r = ({ r with Invalid := (n, line) :: r.Invalid }, false) := by
  simp [processFlags, hf, hv]

theorem processFlags_single_sep (os line : Str) (n : Nat) (r : Lines) (f v msg : Str)
    (hf : containsStr line (flagPat f) = true)
    (hv : findValue f line = some v)
    (hs : validatePathSeparators v os n = some msg) :
    processFlags [f] os line n r =
      ({ r with Invalid :=
          (n, line ++ " [".toList ++ msg ++ "]".toList) :: r.Invalid }, false) := by
  simp [processFlags, hf, hv, hs]

theorem processFlags_single_valid (os line : Str) (n : Nat) (r : Lines) (f v : Str)
    (hf : containsStr line (flagPat f) = true)
    (hv : findValue f line = some v)
    (hs : validatePathSeparators v os n = none) :
    processFlags [f] os line n r =
      (if isStylesheetImportLine line then
        { r with Valid := (n, v) :: r.Valid,
                 StyleSheetImport :=
                   (n, ⟨line, (stylesheetFlagValues line).1, (stylesheetFlagValues line).2⟩)
                   :: r.StyleSheetImport }
       else { r with Valid := (n, v) :: r.Valid }, false) := by
  by_cases hss : isStylesheetImportLine line = true
  · simp [processFlags, hf, hv, hs, hss]
  · simp [processFlags, hf, hv, hs, hss]

theorem processFlags_spec (flags : List Str) (os line : Str) (n : Nat) (r : Lines) :
    processFlags flags os line n r = (r, true)
    ∨ ((processFlags flags os line n r).2 = false ∧
       ((∃ v, (processFlags flags os line n r).1.Valid = (n, v) :: r.Valid
          ∧ (processFlags flags os line n r).1.Invalid = r.Invalid
          ∧ (processFlags flags os line n r).1.Skipped = r.Skipped
          ∧ ((processFlags flags os line n r).1.StyleSheetImport = r.StyleSheetImport
             ∨ ∃ e, (processFlags flags os line n r).1.StyleSheetImport
                 = (n, e) :: r.StyleSheetImport))
        ∨ (∃ t, (processFlags flags os line n r).1.Invalid = (n, t) :: r.Invalid
          ∧ (processFlags flags os line n r).1.Valid = r.Valid
          ∧ (processFlags flags os line n r).1.Skipped = r.Skipped
          ∧ (processFlags flags os line n r).1.StyleSheetImport = r.StyleSheetImport))) := by
  induction flags with
  | nil => left; rfl
  | cons f rest ih =>
    by_cases hc : containsStr line (flagPat f) = true
    · right
      cases hv : findValue f line with
      | none =>
        constructor
        · simp [processFlags, hc, hv]
        · right; exact ⟨line, by simp [processFlags, hc, hv]⟩
      | some v =>
        cases hs : validatePathSeparators v os n with
        | some msg =>
          constructor
          · simp [processFlags, hc, hv, hs]
          · right
            exact ⟨line ++ " [".toList ++ msg ++ "]".toList, by simp [processFlags, hc, hv, hs]⟩
        | none =>
          by_cases hss : isStylesheetImportLine line = true
          · constructor
            · simp [processFlags, hc, hv, hs, hss]
            · left
              refine ⟨v, by simp [processFlags, hc, hv, hs, hss], ?_, ?_, ?_⟩
              · simp [processFlags, hc, hv, hs, hss]
              · simp [processFlags, hc, hv, hs, hss]
              · right
                exact ⟨⟨line, (stylesheetFlagValues line).1, (stylesheetFlagValues line).2⟩,
                  by simp [processFlags, hc, hv, hs, hss]⟩
          · constructor
            · simp [processFlags, hc, hv, hs, hss]
            · left
              refine ⟨v, by simp [processFlags, hc, hv, hs, hss], ?_, ?_, ?_⟩
              · simp [processFlags, hc, hv, hs, hss]
              · simp [processFlags, hc, hv, hs, hss]
              · left; simp [processFlags, hc, hv, hs, hss]
    · have hc' : containsStr line (flagPat f) = false := by
        cases hx : containsStr line (flagPat f)
        · rfl
        · exact absurd hx hc
      simpa [processFlags, hc'] using ih

/-- Per-line outcome of `parseLineAsCommand` on the four classification
maps: the line lands in `Skipped`, in `Valid` (possibly with a
`StyleSheetImport` companion entry), or in `Invalid`, and the buckets it
does not land in are untouched. -/
theorem parseLine_cases (flags : List Str) (os scriptFile line : Str) (n : Nat)
    (r : Lines) (reg : Registry) :
    ((parseLineAsCommand flags os scriptFile line n r reg).1.Valid = r.Valid
      ∧ (parseLineAsCommand flags os scriptFile line n r reg).1.Invalid = r.Invalid
      ∧ (parseLineAsCommand flags os scriptFile line n r reg).1.StyleSheetImport = r.StyleSheetImport
      ∧ (parseLineAsCommand flags os scriptFile line n r reg).1.Skipped = (n, line) :: r.Skipped)
    ∨ ((parseLineAsCommand flags os scriptFile line n r reg).1.Skipped = r.Skipped
      ∧ (∃ v, (parseLineAsCommand flags os scriptFile line n r reg).1.Valid = (n, v) :: r.Valid)
      ∧ (parseLineAsCommand flags os scriptFile line n r reg).1.Invalid = r.Invalid
      ∧ ((parseLineAsCommand flags os scriptFile line n r reg).1.StyleSheetImport = r.StyleSheetImport
         ∨ ∃ e, (parseLineAsCommand flags os scriptFile line n r reg).1.StyleSheetImport
             = (n, e) :: r.StyleSheetImport))
    ∨ ((parseLineAsCommand flags os scriptFile line n r reg).1.Skipped = r.Skipped
      ∧ (∃ t, (parseLineAsCommand flags os scriptFile line n r reg).1.Invalid = (n, t) :: r.Invalid)
      ∧ (parseLineAsCommand flags os scriptFile line n r reg).1.Valid = r.Valid
      ∧ (parseLineAsCommand flags os scriptFile line n r reg).1.StyleSheetImport = r.StyleSheetImport) := by
  have spec := processFlags_spec flags os line n r
  cases hpf : processFlags flags os line n r with
  | mk r1 skip =>
    rw [hpf] at spec
    cases spec with
    | inl hskip =>
      left
      have h1 : r1 = r := by
        have := congrArg Prod.fst hskip; simpa using this
      have h2 : skip = true := by
        have := congrArg Prod.snd hskip; simpa using this
      subst h1; subst h2
      simp [parseLineAsCommand, hpf]
    | inr hclass =>
      obtain ⟨hskip, hcases⟩ := hclass
      simp only at hskip
      subst hskip
      cases hcases with
      | inl hvalid =>
        right; left
        obtain ⟨v, hV, hI, hSk, hSS⟩ := hvalid
        simp only at hV hI hSk hSS
        simp only [parseLineAsCommand, hpf]
        exact ⟨hSk, ⟨v, hV⟩, hI, hSS⟩
      | inr hinv =>
        right; right
        obtain ⟨t, hI, hV, hSk, hSS⟩ := hinv
        simp only at hV hI hSk hSS
        simp only [parseLineAsCommand, hpf]
        exact ⟨hSk, ⟨t, hI⟩, hV, hSS⟩

/-- `parseLineAsCommand` touches no line number other than the one it is
given. -/
theorem parseLine_lookup_ne (flags : List Str) (os scriptFile line : Str) (n : Nat)
    (r : Lines) (reg : Registry) (j : Nat) (hj : j ≠ n) :
    alookup (parseLineAsCommand flags os scriptFile line n r reg).1.Valid j = alookup r.Valid j
    ∧ alookup (parseLineAsCommand flags os scriptFile line n r reg).1.Invalid j = alookup r.Invalid j
    ∧ alookup (parseLineAsCommand flags os scriptFile line n r reg).1.Skipped j = alookup r.Skipped j
    ∧ alookup (parseLineAsCommand flags os scriptFile line n r reg).1.StyleSheetImport j
        = alookup r.StyleSheetImport j := by
  have hnj : n ≠ j := fun e => hj e.symm
  rcases parseLine_cases flags os scriptFile line n r reg with
    ⟨hV, hI, hSS, hSk⟩ | ⟨hSk, ⟨v, hV⟩, hI, hSS⟩ | ⟨hSk, ⟨t, hI⟩, hV, hSS⟩
  · rw [hV, hI, hSS, hSk, alookup_cons_ne n j line r.Skipped hnj]
    exact ⟨rfl, rfl, rfl, rfl⟩
  · rw [hV, hI, hSk, alookup_cons_ne n j v r.Valid hnj]
    refine ⟨rfl, rfl, rfl, ?_⟩
    rcases hSS with hSS | ⟨e, hSS⟩
    · rw [hSS]
    · rw [hSS, alookup_cons_ne n j e r.StyleSheetImport hnj]
  · rw [hV, hI, hSk, hSS, alookup_cons_ne n j t r.Invalid hnj]
    exact ⟨rfl, rfl, rfl, rfl⟩

/-- Mutual exclusion of the three buckets at a line number. -/
def ExactlyOneBucket (r : Lines) (n : Nat) : Prop :=
  ((alookup r.Valid n).isSome = true ∧ alookup r.Invalid n = none ∧ alookup r.Skipped n = none)
  ∨ (alookup r.Valid n = none ∧ (alookup r.Invalid n).isSome = true ∧ alookup r.Skipped n = none)
  ∨ (alookup r.Valid n = none ∧ alookup r.Invalid n = none ∧ (alookup r.Skipped n).isSome = true)

/-- A line whose number is fresh in all three buckets is classified into
exactly one of them. -/
theorem parseLine_exactlyOne (flags : List Str) (os scriptFile line : Str) (n : Nat)
    (r : Lines) (reg : Registry)
    (h1 : alookup r.Valid n = none) (h2 : alookup r.Invalid n = none)
    (h3 : alookup r.Skipped n = none) :
    ExactlyOneBucket (parseLineAsCommand flags os scriptFile line n r reg).1 n := by
  rcases parseLine_cases flags os scriptFile line n r reg with
    ⟨hV, hI, _, hSk⟩ | ⟨hSk, ⟨v, hV⟩, hI, _⟩ | ⟨hSk, ⟨t, hI⟩, hV, _⟩
  · right; right
    rw [hV, hI, hSk, alookup_head n line r.Skipped]
    exact ⟨h1, h2, rfl⟩
  · left
    rw [hV, hI, hSk, alookup_head n v r.Valid]
    exact ⟨rfl, h2, h3⟩
  · right; left
    rw [hV, hI, hSk, alookup_head n t r.Invalid]
    exact ⟨h1, rfl, h3⟩

/-- A `StyleSheetImport` entry is only ever created together with a `Valid`
entry for the same line number. -/
theorem parseLine_ss_valid (flags : List Str) (os scriptFile line : Str) (n : Nat)
    (r : Lines) (reg : Registry)
    (hinv : ∀ m, (alookup r.StyleSheetImport m).isSome = true →
      (alookup r.Valid m).isSome = true) :
    ∀ m, (alookup (parseLineAsCommand flags os scriptFile line n r reg).1.StyleSheetImport m).isSome = true →
      (alookup (parseLineAsCommand flags os scriptFile line n r reg).1.Valid m).isSome = true := by
  intro m hm
  rcases parseLine_cases flags os scriptFile line n r reg with
    ⟨hV, hI, hSS, hSk⟩ | ⟨hSk, ⟨v, hV⟩, hI, hSS⟩ | ⟨hSk, ⟨t, hI⟩, hV, hSS⟩
  · rw [hSS] at hm; rw [hV]; exact hinv m hm
  · by_cases hmn : m = n
    · rw [hV, hmn, alookup_head n v r.Valid]; rfl
    · have hnm : n ≠ m := fun e => hmn e.symm
      rw [hV, alookup_cons_ne n m v r.Valid hnm]
      rcases hSS with hSS | ⟨e, hSS⟩
      · rw [hSS] at hm; exact hinv m hm
      · rw [hSS, alookup_cons_ne n m e r.StyleSheetImport hnm] at hm
        exact hinv m hm
  · rw [hSS] at hm; rw [hV]; exact hinv m hm

/-- Unfolding equation: a blank line advances the counter only. -/
theorem psl_blank (flags : List Str) (os scriptFile line : Str) (rest : List Str)
    (m : Nat) (r : Lines) (reg : Registry) (h : (trimStr line).isEmpty = true) :
    processScriptLines flags os scriptFile (line :: rest) m r reg =
      processScriptLines flags os scriptFile rest (m + 1) r reg := by
  simp [processScriptLines, h]

/-- Unfolding equation: a non-blank line is parsed, then the scan goes on. -/
theorem psl_step (flags : List Str) (os scriptFile line : Str) (rest : List Str)
    (m : Nat) (r : Lines) (reg : Registry) (h : (trimStr line).isEmpty = false) :
    processScriptLines flags os scriptFile (line :: rest) m r reg =
      processScriptLines flags os scriptFile rest (m + 1)
        (parseLineAsCommand flags os scriptFile line m r reg).1
        (parseLineAsCommand flags os scriptFile line m r reg).2 := by
  cases hp : parseLineAsCommand flags os scriptFile line m r reg with
  | mk r1 reg1 => simp [processScriptLines, h, hp]

/-- The scanner loop never writes at line numbers below its current
counter. -/
theorem psl_lookup_lt (flags : List Str) (os scriptFile : Str) :
    ∀ (content : List Str) (m : Nat) (r : Lines) (reg : Registry) (j : Nat), j < m →
    alookup (processScriptLines flags os scriptFile content m r reg).1.Valid j = alookup r.Valid j
    ∧ alookup (processScriptLines flags os scriptFile content m r reg).1.Invalid j = alookup r.Invalid j
    ∧ alookup (processScriptLines flags os scriptFile content m r reg).1.Skipped j = alookup r.Skipped j
    ∧ alookup (processScriptLines flags os scriptFile content m r reg).1.StyleSheetImport j
        = alookup r.StyleSheetImport j := by
  intro content
  induction content with
  | nil => intro m r reg j _; exact ⟨rfl, rfl, rfl, rfl⟩
  | cons line rest ih =>
    intro m r reg j hj
    by_cases hb : (trimStr line).isEmpty = true
    · rw [psl_blank flags os scriptFile line rest m r reg hb]
      exact ih (m + 1) r reg j (Nat.lt_succ_of_lt hj)
    · have hb' : (trimStr line).isEmpty = false := by
        cases hx : (trimStr line).isEmpty
        · rfl
        · exact absurd hx hb
      have hjm : j ≠ m := Nat.ne_of_lt hj
      rw [psl_step flags os scriptFile line rest m r reg hb']
      have hpar := parseLine_lookup_ne flags os scriptFile line m r reg j hjm
      have hrest := ih (m + 1)
        (parseLineAsCommand flags os scriptFile line m r reg).1
        (parseLineAsCommand flags os scriptFile line m r reg).2 j (Nat.lt_succ_of_lt hj)
      exact ⟨hrest.1.trans hpar.1, hrest.2.1.trans hpar.2.1,
             hrest.2.2.1.trans hpar.2.2.1, hrest.2.2.2.trans hpar.2.2.2⟩

/-- All three buckets are empty from line number `m` upwards. -/
def NoneFrom (r : Lines) (m : Nat) : Prop :=
  ∀ j, m ≤ j →
    alookup r.Valid j = none ∧ alookup r.Invalid j = none ∧ alookup r.Skipped j = none

theorem parseLine_noneFrom (flags : List Str) (os scriptFile line : Str) (m : Nat)
    (r : Lines) (reg : Registry) (h : NoneFrom r m) :
    NoneFrom (parseLineAsCommand flags os scriptFile line m r reg).1 (m + 1) := by
  intro j hj
  have hjm : j ≠ m := by omega
  have hpar := parseLine_lookup_ne flags os scriptFile line m r reg j hjm
  have hr := h j (by omega)
  exact ⟨hpar.1.trans hr.1, hpar.2.1.trans hr.2.1, hpar.2.2.1.trans hr.2.2⟩

/-- Main induction for the mutual-exclusion invariant: any non-blank line
of the remaining content ends up in exactly one bucket. -/
theorem psl_exactlyOne (flags : List Str) (os scriptFile : Str) :
    ∀ (content : List Str) (m : Nat) (r : Lines) (reg : Registry) (i : Nat) (line : Str),
    NoneFrom r m → content.get? i = some line → (trimStr line).isEmpty = false →
    ExactlyOneBucket (processScriptLines flags os scriptFile content m r reg).1 (m + i) := by
  intro content
  induction content with
  | nil => intro m r reg i line _ hget _; simp at hget
  | cons l rest ih =>
    intro m r reg i line hnone hget hnb
    cases i with
    | zero =>
      have hl : l = line := by simpa using hget
      subst hl
      rw [psl_step flags os scriptFile l rest m r reg hnb]
      have hm := hnone m (Nat.le_refl m)
      have hone := parseLine_exactlyOne flags os scriptFile l m r reg hm.1 hm.2.1 hm.2.2
      have hpres := psl_lookup_lt flags os scriptFile rest (m + 1)
        (parseLineAsCommand flags os scriptFile l m r reg).1
        (parseLineAsCommand flags os scriptFile l m r reg).2 m (Nat.lt_succ_self m)
      simp only [Nat.add_zero]
      rcases hone with ⟨a, b, c⟩ | ⟨a, b, c⟩ | ⟨a, b, c⟩
      · left; rw [hpres.1, hpres.2.1, hpres.2.2.1]; exact ⟨a, b, c⟩
      · right; left; rw [hpres.1, hpres.2.1, hpres.2.2.1]; exact ⟨a, b, c⟩
      · right; right; rw [hpres.1, hpres.2.1, hpres.2.2.1]; exact ⟨a, b, c⟩
    | succ i' =>
      have hget' : rest.get? i' = some line := by simpa using hget
      by_cases hb : (trimStr l).isEmpty = true
      · rw [psl_blank flags os scriptFile l rest m r reg hb]
        have hnone' : NoneFrom r (m + 1) := fun j hj => hnone j (by omega)
        have := ih (m + 1) r reg i' line hnone' hget' hnb
        have harith : m + 1 + i' = m + (i' + 1) := by omega
        rwa [harith] at this
      · have hb' : (trimStr l).isEmpty = false := by
          cases hx : (trimStr l).isEmpty
          · rfl
          · exact absurd hx hb
        rw [psl_step flags os scriptFile l rest m r reg hb']
        have hnone1 := parseLine_noneFrom flags os scriptFile l m r reg hnone
        have := ih (m + 1)
          (parseLineAsCommand flags os scriptFile l m r reg).1
          (parseLineAsCommand flags os scriptFile l m r reg).2 i' line hnone1 hget' hnb
        have harith : m + 1 + i' = m + (i' + 1) := by omega
        rwa [harith] at this

/-- The stylesheet-implies-valid invariant is preserved by the whole scan. -/
theorem psl_ss_valid (flags : List Str) (os scriptFile : Str) :
    ∀ (content : List Str) (m : Nat) (r : Lines) (reg : Registry),
    (∀ k, (alookup r.StyleSheetImport k).isSome = true → (alookup r.Valid k).isSome = true) →
    ∀ k, (alookup (processScriptLines flags os scriptFile content m r reg).1.StyleSheetImport k).isSome = true →
      (alookup (processScriptLines flags os scriptFile content m r reg).1.Valid k).isSome = true := by
  intro content
  induction content with
  | nil => intro m r reg hinv k; exact hinv k
  | cons line rest ih =>
    intro m r reg hinv k
    by_cases hb : (trimStr line).isEmpty = true
    · rw [psl_blank flags os scriptFile line rest m r reg hb]
      exact ih (m + 1) r reg hinv k
    · have hb' : (trimStr line).isEmpty = false := by
        cases hx : (trimStr line).isEmpty
        · rfl
        · exact absurd hx hb
      rw [psl_step flags os scriptFile line rest m r reg hb']
      exact ih (m + 1) _ _ (parseLine_ss_valid flags os scriptFile line m r reg hinv) k

/-! ## Claim C1 -/

/-- C1: for every script and every non-blank line processed by the script
line parser, the line number is entered into exactly one of the three maps
Valid, Invalid and Skipped of that script's analysis result — a line
classified Valid or Invalid is never also Skipped, and no line lands in two
buckets.  The line at 0-based index `i` of the file carries line number
`1 + i`. -/
theorem line_buckets_mutually_exclusive (flags : List Str)
    (targetOS scriptFile : Str) (content : List Str) (reg : Registry)
    (i : Nat) (line : Str)
    (hget : content.get? i = some line)
    (hnb : (trimStr line).isEmpty = false) :
    ExactlyOneBucket (checkFileSyntax flags targetOS scriptFile content reg).1 (1 + i) := by
  have hnone : NoneFrom emptyLines 1 := by
    intro j _; exact ⟨rfl, rfl, rfl⟩
  exact psl_exactlyOne flags targetOS scriptFile content 1 emptyLines reg i line hnone hget hnb

theorem line_buckets_mutually_exclusive_witness :
    ExactlyOneBucket (checkFileSyntax ["R".toList] winS ("deploy.bat".toList)
      ["-R=\"config\\data.xml\"".toList] []).1 1 :=
  line_buckets_mutually_exclusive ["R".toList] winS ("deploy.bat".toList)
    ["-R=\"config\\data.xml\"".toList] [] 0 ("-R=\"config\\data.xml\"".toList)
    (by decide) (by decide)

/-! ## Claim C10 -/

/-- C10: if a line receives a StyleSheetImport entry then that same line
number also has a Valid entry in the script's analysis result — a line
whose tracked flag is improperly quoted or whose path has wrong separators
is Invalid and never produces a StyleSheetImport entry. -/
theorem stylesheet_entry_implies_valid (flags : List Str)
    (targetOS scriptFile : Str) (content : List Str) (reg : Registry) (n : Nat)
    (h : (alookup (checkFileSyntax flags targetOS scriptFile content reg).1.StyleSheetImport n).isSome = true) :
    (alookup (checkFileSyntax flags targetOS scriptFile content reg).1.Valid n).isSome = true := by
  refine psl_ss_valid flags targetOS scriptFile content 1 emptyLines reg ?_ n h
  intro k hk
  simp [emptyLines, alookup] at hk

theorem stylesheet_entry_implies_valid_witness :
    (alookup (checkFileSyntax ["input".toList] linS ("deploy.sh".toList)
      ["install_xml_stylesheet_datasets -input=\"200-Stylesheets/import_stylesheet.txt\" -filepath=\"200-Stylesheets\"".toList]
      []).1.Valid 1).isSome = true :=
  stylesheet_entry_implies_valid ["input".toList] linS ("deploy.sh".toList)
    ["install_xml_stylesheet_datasets -input=\"200-Stylesheets/import_stylesheet.txt\" -filepath=\"200-Stylesheets\"".toList]
    [] 1 (by decide)

/-! ## Claim C2 -/

/-- C2 counterexample: on a Windows-targeted script, the first (and only)
configured flag `-R` occurs and matches the stricter quoted form
`-R="config/data.xml"`, yet the line is classified Invalid (separator
mismatch), not Valid — so "Valid with the quoted value if that flag matches
the stricter form" fails as stated. -/
theorem first_flag_claim_counterexample :
    findValue ("R".toList) ("-R=\"config/data.xml\"".toList)
      = some ("config/data.xml".toList)
    ∧ (parseLineAsCommand ["R".toList] winS ("deploy.bat".toList)
        ("-R=\"config/data.xml\"".toList) 25 emptyLines []).1.Valid = []
    ∧ (alookup (parseLineAsCommand ["R".toList] winS ("deploy.bat".toList)
        ("-R=\"config/data.xml\"".toList) 25 emptyLines []).1.Invalid 25).isSome = true := by
  decide

/-- C2 (amended): if at least one configured flag's text `-<flag>` occurs
in the line, classification is determined solely by the first such flag in
configured order — flags later in the order are never consulted; the line
is Valid with the quoted value if that flag matches the stricter form
`-<flag>="<value>"` and the value passes target-OS separator validation,
and Invalid otherwise (improper quoting, which never falls through to
another flag, or separator mismatch). -/
theorem first_matching_flag_determines_classification
    (targetOS scriptFile line : Str) (n : Nat) (r : Lines) (reg : Registry)
    (pre post : List Str) (f : Str)
    (hpre : ∀ g ∈ pre, containsStr line (flagPat g) = false)
    (hf : containsStr line (flagPat f) = true) :
    parseLineAsCommand (pre ++ f :: post) targetOS scriptFile line n r reg
      = parseLineAsCommand [f] targetOS scriptFile line n r reg
    ∧ (findValue f line = none →
        (parseLineAsCommand (pre ++ f :: post) targetOS scriptFile line n r reg).1.Invalid
            = (n, line) :: r.Invalid
        ∧ (parseLineAsCommand (pre ++ f :: post) targetOS scriptFile line n r reg).1.Valid
            = r.Valid)
    ∧ (∀ v, findValue f line = some v → validatePathSeparators v targetOS n = none →
        (parseLineAsCommand (pre ++ f :: post) targetOS scriptFile line n r reg).1.Valid
            = (n, v) :: r.Valid
        ∧ (parseLineAsCommand (pre ++ f :: post) targetOS scriptFile line n r reg).1.Invalid
            = r.Invalid)
    ∧ (∀ v msg, findValue f line = some v → validatePathSeparators v targetOS n = some msg →
        (parseLineAsCommand (pre ++ f :: post) targetOS scriptFile line n r reg).1.Invalid
            = (n, line ++ " [".toList ++ msg ++ "]".toList) :: r.Invalid
        ∧ (parseLineAsCommand (pre ++ f :: post) targetOS scriptFile line n r reg).1.Valid
            = r.Valid) := by
  have hEq : parseLineAsCommand (pre ++ f :: post) targetOS scriptFile line n r reg
      = parseLineAsCommand [f] targetOS scriptFile line n r reg := by
    simp only [parseLineAsCommand,
      processFlags_first targetOS line n r pre post f hpre hf]
  refine ⟨hEq, ?_, ?_, ?_⟩
  · intro hv
    rw [hEq]
    have hpf := processFlags_single_noval targetOS line n r f hf hv
    simp [parseLineAsCommand, hpf]
  · intro v hv hs
    rw [hEq]
    have hpf := processFlags_single_valid targetOS line n r f v hf hv hs
    by_cases hss : isStylesheetImportLine line = true
    · simp [parseLineAsCommand, hpf, hss]
    · simp [parseLineAsCommand, hpf, hss]
  · intro v msg hv hs
    rw [hEq]
    have hpf := processFlags_single_sep targetOS line n r f v msg hf hv hs
    simp [parseLineAsCommand, hpf]

theorem first_matching_flag_determines_classification_witness :
    parseLineAsCommand (["i".toList] ++ "R".toList :: ["x".toList]) winS
      ("deploy.bat".toList) ("-R=\"config\\data.xml\"".toList) 1 emptyLines []
      = parseLineAsCommand ["R".toList] winS
      ("deploy.bat".toList) ("-R=\"config\\data.xml\"".toList) 1 emptyLines [] :=
  (first_matching_flag_determines_classification winS ("deploy.bat".toList)
    ("-R=\"config\\data.xml\"".toList) 1 emptyLines [] ["i".toList] ["x".toList]
    ("R".toList) (by decide) (by decide)).1

/-! ## Claim C3 -/

/-- C3: separator validation fails iff the target OS is windows and the
path contains a forward slash (message citing forward slashes), or the
target OS is linux and the path contains a backslash (message citing
backslashes); a path with no separator at all passes under any target OS;
and on failure the line is classified Invalid with the error text appended
in brackets. -/
theorem separator_validation_characterization (fp os : Str) (n : Nat) :
    ((validatePathSeparators fp os n).isSome = true ↔
      ((os = winS ∧ hasChar fp '/' = true) ∨ (os = linS ∧ hasChar fp '\\' = true)))
    ∧ (hasChar fp '/' = true →
        validatePathSeparators fp winS n = some (winSepMsg n fp)
        ∧ containsStr (winSepMsg n fp) ("forward slashes".toList) = true)
    ∧ (hasChar fp '\\' = true →
        validatePathSeparators fp linS n = some (linSepMsg n fp)
        ∧ containsStr (linSepMsg n fp) ("backslashes".toList) = true)
    ∧ (hasChar fp '/' = false → hasChar fp '\\' = false →
        validatePathSeparators fp os n = none)
    ∧ (∀ (scriptFile line : Str) (r : Lines) (reg : Registry)
        (pre post : List Str) (f : Str),
        (∀ g ∈ pre, containsStr line (flagPat g) = false) →
        containsStr line (flagPat f) = true →
        findValue f line = some fp →
        ∀ msg, validatePathSeparators fp os n = some msg →
        (parseLineAsCommand (pre ++ f :: post) os scriptFile line n r reg).1.Invalid
          = (n, line ++ " [".toList ++ msg ++ "]".toList) :: r.Invalid) := by
  have hwl : ¬ (winS = linS) := by decide
  refine ⟨?_, ?_, ?_, ?_, ?_⟩
  · by_cases hw : os = winS
    · subst hw
      by_cases hfs : hasChar fp '/' = true
      · simp [validatePathSeparators, hfs, hwl]
      · simp [validatePathSeparators, hfs, hwl]
    · by_cases hl : os = linS
      · subst hl
        have hlw : ¬ (linS = winS) := by decide
        by_cases hbs : hasChar fp '\\' = true
        · simp [validatePathSeparators, hbs, hlw]
        · simp [validatePathSeparators, hbs, hlw]
      · simp [validatePathSeparators, hw, hl]
  · intro hfs
    refine ⟨by simp [validatePathSeparators, hfs], ?_⟩
    unfold winSepMsg
    apply containsStr_append_left
    apply containsStr_append_left
    apply containsStr_append_left
    apply containsStr_append_left
    decide
  · intro hbs
    have hlw : ¬ (linS = winS) := by decide
    refine ⟨by simp [validatePathSeparators, hbs, hlw], ?_⟩
    unfold linSepMsg
    apply containsStr_append_left
    apply containsStr_append_left
    apply containsStr_append_left
    apply containsStr_append_left
    decide
  · intro hfs hbs
    unfold validatePathSeparators
    simp [hfs, hbs]
  · intro scriptFile line r reg pre post f hpre hf hv msg hs
    exact ((first_matching_flag_determines_classification os scriptFile line n r reg
      pre post f hpre hf).2.2.2 fp msg hv hs).1

theorem separator_validation_characterization_witness :
    validatePathSeparators ("config/data.xml".toList) winS 2
      = some (winSepMsg 2 ("config/data.xml".toList))
    ∧ containsStr (winSepMsg 2 ("config/data.xml".toList))
        ("forward slashes".toList) = true :=
  (separator_validation_characterization ("config/data.xml".toList) winS 2).2.1
    (by decide)

/-! ## Claim C6 -/

theorem orphanScan_mem (vs : List Str) :
    ∀ (files : List Str) (x : Str), x ∈ orphanScan vs files ↔ (x ∈ files ∧ ¬ x ∈ vs) := by
  intro files
  induction files with
  | nil => intro x; simp [orphanScan]
  | cons item rest ih =>
    intro x
    by_cases h : memb item vs = true
    · have hm : item ∈ vs := (memb_iff_mem item vs).mp h
      simp only [orphanScan, h, if_true]
      rw [ih]
      constructor
      · rintro ⟨hx, hv⟩; exact ⟨List.mem_cons_of_mem item hx, hv⟩
      · rintro ⟨hx, hv⟩
        rcases List.mem_cons.mp hx with rfl | hx
        · exact absurd hm hv
        · exact ⟨hx, hv⟩
    · have h' : memb item vs = false := by
        cases hx : memb item vs
        · rfl
        · exact absurd hx h
      have hm : ¬ item ∈ vs := fun hc => h ((memb_iff_mem item vs).mpr hc)
      simp only [orphanScan, h', Bool.false_eq_true, if_false]
      rw [List.mem_cons, ih, List.mem_cons]
      constructor
      · rintro (rfl | ⟨hx, hv⟩)
        · exact ⟨Or.inl rfl, hm⟩
        · exact ⟨Or.inr hx, hv⟩
      · rintro ⟨rfl | hx, hv⟩
        · exact Or.inl rfl
        · exact Or.inr ⟨hx, hv⟩

/-- C6: the directory-content comparison reports as orphaned exactly the
set difference `collected minus validPaths`: each collected file absent
from the set of valid path values is logged as an error, each present one
is not; when the collected set equals the valid-path set, zero orphan
errors are reported. -/
theorem directory_comparison_reports_set_difference
    (validLines : List (Nat × Str)) (filesFound : List Str) :
    (∀ x, x ∈ compareFilesWithScripts validLines filesFound ↔
      (x ∈ filesFound ∧ ¬ x ∈ valueSetOf validLines))
    ∧ ((∀ x, x ∈ filesFound ↔ x ∈ valueSetOf validLines) →
        compareFilesWithScripts validLines filesFound = []) := by
  constructor
  · intro x; exact orphanScan_mem (valueSetOf validLines) filesFound x
  · intro heq
    cases hres : compareFilesWithScripts validLines filesFound with
    | nil => rfl
    | cons y t =>
      exfalso
      have hy : y ∈ compareFilesWithScripts validLines filesFound := by
        rw [hres]; exact List.mem_cons_self y t
      have := (orphanScan_mem (valueSetOf validLines) filesFound y).mp hy
      exact this.2 ((heq y).mp this.1)

theorem directory_comparison_reports_set_difference_witness :
    compareFilesWithScripts [(1, "a.xml".toList)] ["a.xml".toList] = [] :=
  (directory_comparison_reports_set_difference [(1, "a.xml".toList)]
    ["a.xml".toList]).2 (fun _ => Iff.rfl)

/-! ## Claim C7 -/

theorem mem_setInsert (s : List Str) (e x : Str) :
    x ∈ setInsert s e ↔ x ∈ s ∨ x = e := by
  by_cases h : memb e s = true
  · have he : e ∈ s := (memb_iff_mem e s).mp h
    simp only [setInsert, h, if_true]
    constructor
    · exact Or.inl
    · rintro (hx | rfl)
      · exact hx
      · exact he
  · have h' : memb e s = false := by
      cases hx : memb e s
      · rfl
      · exact absurd hx h
    simp only [setInsert, h', Bool.false_eq_true, if_false]
    simp [List.mem_append]

theorem mem_foldl_setInsert :
    ∀ (l acc : List Str) (x : Str), x ∈ l.foldl setInsert acc ↔ x ∈ acc ∨ x ∈ l := by
  intro l
  induction l with
  | nil => intro acc x; simp
  | cons e t ih =>
    intro acc x
    simp only [List.foldl_cons]
    rw [ih, mem_setInsert, List.mem_cons]
    tauto

theorem mem_unionExecs (reg : Registry) :
    ∀ (names : List Str) (x : Str),
    x ∈ unionExecs reg names ↔ ∃ f ∈ names, x ∈ regLookup reg f := by
  have aux : ∀ (names : List Str) (acc : List Str) (x : Str),
      x ∈ names.foldl (fun acc f => (regLookup reg f).foldl setInsert acc) acc ↔
        x ∈ acc ∨ ∃ f ∈ names, x ∈ regLookup reg f := by
    intro names
    induction names with
    | nil => intro acc x; simp
    | cons f t ih =>
      intro acc x
      simp only [List.foldl_cons]
      rw [ih, mem_foldl_setInsert]
      simp only [List.mem_cons]
      constructor
      · rintro ((hx | hx) | ⟨g, hg, hx⟩)
        · exact Or.inl hx
        · exact Or.inr ⟨f, Or.inl rfl, hx⟩
        · exact Or.inr ⟨g, Or.inr hg, hx⟩
      · rintro (hx | ⟨g, rfl | hg, hx⟩)
        · exact Or.inl (Or.inl hx)
        · exact Or.inl (Or.inr hx)
        · exact Or.inr ⟨g, hg, hx⟩
  intro names x
  have := aux names [] x
  simpa [unionExecs] using this

theorem strLe_total (a b : Str) : strLe a b = true ∨ strLe b a = true := by
  unfold strLe
  rcases le_total a b with h | h
  · exact Or.inl (decide_eq_true h)
  · exact Or.inr (decide_eq_true h)

theorem strLe_trans {a b c : Str} (h1 : strLe a b = true) (h2 : strLe b c = true) :
    strLe a c = true :=
  decide_eq_true (le_trans (of_decide_eq_true h1) (of_decide_eq_true h2))

theorem mem_sInsert (y x : Str) :
    ∀ l : List Str, x ∈ sInsert y l ↔ x = y ∨ x ∈ l := by
  intro l
  induction l with
  | nil => simp [sInsert]
  | cons h t ih =>
    by_cases hle : strLe y h = true
    · simp [sInsert, hle, List.mem_cons]
    · have hle' : strLe y h = false := by
        cases hx : strLe y h
        · rfl
        · exact absurd hx hle
      simp only [sInsert, hle', Bool.false_eq_true, if_false, List.mem_cons]
      rw [ih]
      tauto

theorem sorted_sInsert (x : Str) :
    ∀ l : List Str, l.Pairwise (fun a b => strLe a b = true) →
      (sInsert x l).Pairwise (fun a b => strLe a b = true) := by
  intro l
  induction l with
  | nil => intro _; simp [sInsert]
  | cons h t ih =>
    intro hp
    rw [List.pairwise_cons] at hp
    by_cases hle : strLe x h = true
    · simp only [sInsert, hle, if_true]
      rw [List.pairwise_cons]
      constructor
      · intro z hz
        rcases List.mem_cons.mp hz with rfl | hz
        · exact hle
        · exact strLe_trans hle (hp.1 z hz)
      · rw [List.pairwise_cons]
        exact hp
    · have hle' : strLe x h = false := by
        cases hx : strLe x h
        · rfl
        · exact absurd hx hle
      have hxh : strLe h x = true := by
        rcases strLe_total x h with hc | hc
        · rw [hc] at hle'; cases hle'
        · exact hc
      simp only [sInsert, hle', Bool.false_eq_true, if_false]
      rw [List.pairwise_cons]
      constructor
      · intro z hz
        rcases (mem_sInsert x z t).mp hz with rfl | hz
        · exact hxh
        · exact hp.1 z hz
      · exact ih hp.2

theorem mem_sortStr (x : Str) : ∀ l : List Str, x ∈ sortStr l ↔ x ∈ l := by
  intro l
  induction l with
  | nil => simp [sortStr]
  | cons h t ih =>
    simp only [sortStr, List.mem_cons]
    rw [mem_sInsert h x (sortStr t), ih]

theorem sorted_sortStr :
    ∀ l : List Str, (sortStr l).Pairwise (fun a b => strLe a b = true) := by
  intro l
  induction l with
  | nil => simp [sortStr]
  | cons h t ih => exact sorted_sInsert h (sortStr t) ih

/-- C7: the parity check reports exactly the executables in the union of
the Windows scripts' sets but absent from the union of the Linux scripts'
sets, and conversely; each list is sorted and joined with commas into one
error line; with fewer than two configured scripts, or with only one OS
family represented, no parity mismatch is reported. -/
theorem parity_check_characterization (scripts : List scriptDefinition) (reg : Registry) :
    (scripts.length < 2 → checkScriptParity scripts reg = [])
    ∧ ((windowsScriptNames scripts).isEmpty = true ∨ (linuxScriptNames scripts).isEmpty = true →
        checkScriptParity scripts reg = [])
    ∧ (∀ e, e ∈ sortStr (missingInLinux scripts reg) ↔
        ((∃ f ∈ windowsScriptNames scripts, e ∈ regLookup reg f)
          ∧ ¬ ∃ f ∈ linuxScriptNames scripts, e ∈ regLookup reg f))
    ∧ (∀ e, e ∈ sortStr (missingInWindows scripts reg) ↔
        ((∃ f ∈ linuxScriptNames scripts, e ∈ regLookup reg f)
          ∧ ¬ ∃ f ∈ windowsScriptNames scripts, e ∈ regLookup reg f))
    ∧ (sortStr (missingInLinux scripts reg)).Pairwise (fun a b => strLe a b = true)
    ∧ (sortStr (missingInWindows scripts reg)).Pairwise (fun a b => strLe a b = true)
    ∧ (¬ scripts.length < 2 → (windowsScriptNames scripts).isEmpty = false →
        (linuxScriptNames scripts).isEmpty = false →
        checkScriptParity scripts reg =
          (if (missingInLinux scripts reg).isEmpty then []
           else [winMissingHeader ++ joinCommaSp (sortStr (missingInLinux scripts reg))]) ++
          (if (missingInWindows scripts reg).isEmpty then []
           else [linMissingHeader ++ joinCommaSp (sortStr (missingInWindows scripts reg))])) := by
  refine ⟨?_, ?_, ?_, ?_, sorted_sortStr _, sorted_sortStr _, ?_⟩
  · intro h
    simp [checkScriptParity, h]
  · intro h
    by_cases hlen : scripts.length < 2
    · simp [checkScriptParity, hlen]
    · rcases h with h | h
      · simp [checkScriptParity, hlen, h]
      · simp [checkScriptParity, hlen, h]
  · intro e
    unfold missingInLinux
    rw [mem_sortStr, List.mem_filter]
    constructor
    · rintro ⟨h1, h2⟩
      refine ⟨(mem_unionExecs reg (windowsScriptNames scripts) e).mp h1, ?_⟩
      intro hc
      have : memb e (unionExecs reg (linuxScriptNames scripts)) = true :=
        (memb_iff_mem _ _).mpr ((mem_unionExecs reg (linuxScriptNames scripts) e).mpr hc)
      rw [this] at h2
      cases h2
    · rintro ⟨h1, h2⟩
      refine ⟨(mem_unionExecs reg (windowsScriptNames scripts) e).mpr h1, ?_⟩
      have : ¬ e ∈ unionExecs reg (linuxScriptNames scripts) := fun hc =>
        h2 ((mem_unionExecs reg (linuxScriptNames scripts) e).mp hc)
      cases hx : memb e (unionExecs reg (linuxScriptNames scripts))
      · rfl
      · exact absurd ((memb_iff_mem _ _).mp hx) this
  · intro e
    unfold missingInWindows
    rw [mem_sortStr, List.mem_filter]
    constructor
    · rintro ⟨h1, h2⟩
      refine ⟨(mem_unionExecs reg (linuxScriptNames scripts) e).mp h1, ?_⟩
      intro hc
      have : memb e (unionExecs reg (windowsScriptNames scripts)) = true :=
        (memb_iff_mem _ _).mpr ((mem_unionExecs reg (windowsScriptNames scripts) e).mpr hc)
      rw [this] at h2
      cases h2
    · rintro ⟨h1, h2⟩
      refine ⟨(mem_unionExecs reg (linuxScriptNames scripts) e).mpr h1, ?_⟩
      have : ¬ e ∈ unionExecs reg (windowsScriptNames scripts) := fun hc =>
        h2 ((mem_unionExecs reg (windowsScriptNames scripts) e).mp hc)
      cases hx : memb e (unionExecs reg (windowsScriptNames scripts))
      · rfl
      · exact absurd ((memb_iff_mem _ _).mp hx) this
  · intro hlen hw hl
    simp [checkScriptParity, hlen, hw, hl]

theorem parity_check_characterization_witness :
    checkScriptParity [⟨"deploy.bat".toList, winS⟩] [] = [] :=
  (parity_check_characterization [⟨"deploy.bat".toList, winS⟩] []).1 (by decide)

/-! ## Claim C8 -/

theorem hasChar_dropPre (p s : Str) (c : Char) (h : hasChar s c = false) :
    hasChar (dropPre p s) c = false := by
  unfold dropPre
  split
  · exact hasChar_drop s c p.length h
  · exact h

/-- C8 counterexample: the line `$UTIL -input="a.xml"` has a bare
variable-reference leading token; the claim predicts the prefix-stripped,
suffix-stripped, lowercased name `util` (non-empty) is recorded, but
extraction returns the empty string and the registry is left untouched. -/
theorem variable_reference_token_counterexample :
    extractExecutableName ("$UTIL -input=\"a.xml\"".toList) = []
    ∧ trackExecutable [] ("deploy.sh".toList) ("$UTIL -input=\"a.xml\"".toList) = []
    ∧ lowerStr (dropSuf (".sh".toList) (dropSuf (".bat".toList) (dropSuf (".exe".toList)
        (dropPre ("$".toList) ("$UTIL".toList))))) = "util".toList := by
  decide

/-- C8 (amended): a command line whose leading token is a bare variable
reference such as `$UTIL` or `%UTIL%` — no path component — is skipped by
executable extraction: the result is the empty string and nothing is
recorded in the registry.  The `$`/`%` prefix is only shed when the token
has a path component, via basename extraction. -/
theorem variable_reference_token_skipped (line tok : Str) (fr : List Str)
    (h1 : (trimStr line).isEmpty = false)
    (h2 : isPre ("#".toList) (trimStr line) = false)
    (h3 : isPre ("REM".toList) (trimStr line) = false)
    (h4 : isPre ("rem".toList) (trimStr line) = false)
    (h5 : fields (trimStr line) = tok :: fr)
    (h6 : hasChar tok '=' = false)
    (h7 : hasChar tok '/' = false)
    (h8 : hasChar tok '\\' = false)
    (h9 : isPre ("$".toList) (dropPre ("@".toList) tok) = true ∨
          isPre ("%".toList) (dropPre ("@".toList) tok) = true) :
    extractExecutableName line = []
    ∧ ∀ (reg : Registry) (f : Str), trackExecutable reg f line = reg := by
  have hbase : baseAfterSep (dropPre ("@".toList) tok) = dropPre ("@".toList) tok :=
    baseAfterSep_id _ (hasChar_dropPre _ tok '/' h7) (hasChar_dropPre _ tok '\\' h8)
  have h2a : isPre ['#'] (trimStr line) = false := h2
  have h3a : isPre ['R', 'E', 'M'] (trimStr line) = false := h3
  have h4a : isPre ['r', 'e', 'm'] (trimStr line) = false := h4
  have hba : baseAfterSep (dropPre ['@'] tok) = dropPre ['@'] tok := hbase
  have h9a : isPre ['$'] (dropPre ['@'] tok) = true ∨ isPre ['%'] (dropPre ['@'] tok) = true := h9
  have hex : extractExecutableName line = [] := by
    unfold extractExecutableName
    rcases h9a with h9a | h9a
    · simp [h1, h2a, h3a, h4a, h5, h6, hba, h9a]
    · simp [h1, h2a, h3a, h4a, h5, h6, hba, h9a]
  refine ⟨hex, ?_⟩
  intro reg f
  simp [trackExecutable, hex]

theorem variable_reference_token_skipped_witness :
    extractExecutableName ("%TC_ROOT% -u=\"x\"".toList) = []
    ∧ ∀ (reg : Registry) (f : Str),
        trackExecutable reg f ("%TC_ROOT% -u=\"x\"".toList) = reg :=
  variable_reference_token_skipped ("%TC_ROOT% -u=\"x\"".toList)
    ("%TC_ROOT%".toList) ["-u=\"x\"".toList]
    (by decide) (by decide) (by decide) (by decide) (by decide)
    (by decide) (by decide) (by decide) (Or.inr (by decide))

/-! ## Claim C9 -/

/-- The manifest scanner never writes at line numbers below its counter. -/
theorem pml_lookup_lt (xp cf ct : Str) :
    ∀ (lines : List Str) (n j : Nat), j < n →
    alookup (processManifestLines xp cf ct lines n).entries j = none
    ∧ alookup (processManifestLines xp cf ct lines n).malformed j = none := by
  intro lines
  induction lines with
  | nil =>
    intro n j _
    exact ⟨rfl, rfl⟩
  | cons l rest ih =>
    intro n j hj
    have hjn : n ≠ j := fun e => absurd e.symm (Nat.ne_of_lt hj)
    have hr := ih (n + 1) j (Nat.lt_succ_of_lt hj)
    rcases hsp : splitComma l with _ | ⟨c0, _ | ⟨c1, cr⟩⟩
    · simp only [processManifestLines, hsp]
      exact ⟨hr.1, (alookup_cons_ne n j l _ hjn).trans hr.2⟩
    · simp only [processManifestLines, hsp]
      exact ⟨hr.1, (alookup_cons_ne n j l _ hjn).trans hr.2⟩
    · simp only [processManifestLines, hsp]
      exact ⟨(alookup_cons_ne n j _ _ hjn).trans hr.1, hr.2⟩

/-- C9 counterexample: the empty line 2 of the manifest is logged as
malformed — the code splits every line, and an empty line has a single
(empty) column, so the claim that an empty line yields no malformed-line
error fails. -/
theorem manifest_empty_line_counterexample :
    (processManifestLines ("200-Stylesheets".toList) [] []
      ["a,b.xml".toList, [], "c,d.xml".toList] 1).malformed = [(2, [])] := by
  decide

/-- C9 (amended): every manifest line, empty ones included, is split on
comma; a line with fewer than two columns (an empty line splits to one
empty column) is logged as malformed and yields no file-path entry, while a
line with at least two columns yields exactly its entry, built from the
trimmed second column; either way, the remaining manifest lines are still
processed on their own terms. -/
theorem manifest_line_dichotomy (xp cf ct : Str) :
    ∀ (lines : List Str) (n i : Nat) (line : Str), lines.get? i = some line →
    ((splitComma line).length < 2 →
        alookup (processManifestLines xp cf ct lines n).malformed (n + i) = some line
        ∧ alookup (processManifestLines xp cf ct lines n).entries (n + i) = none)
    ∧ (∀ c0 c1 cr, splitComma line = c0 :: c1 :: cr →
        alookup (processManifestLines xp cf ct lines n).entries (n + i)
          = some ⟨trimStr c1, filepathJoin (replaceAll xp cf ct) (trimStr c1)⟩
        ∧ alookup (processManifestLines xp cf ct lines n).malformed (n + i) = none) := by
  intro lines
  induction lines with
  | nil =>
    intro n i line hget
    simp at hget
  | cons l rest ih =>
    intro n i line hget
    cases i with
    | zero =>
      have hl : l = line := by simpa using hget
      subst hl
      have hlt := pml_lookup_lt xp cf ct rest (n + 1) n (Nat.lt_succ_self n)
      constructor
      · intro hlen
        rcases hsp : splitComma l with _ | ⟨c0, _ | ⟨c1, cr⟩⟩
        · simp only [processManifestLines, hsp, Nat.add_zero]
          exact ⟨alookup_head n l _, hlt.1⟩
        · simp only [processManifestLines, hsp, Nat.add_zero]
          exact ⟨alookup_head n l _, hlt.1⟩
        · rw [hsp] at hlen
          simp at hlen
          omega
      · intro c0 c1 cr hsp
        simp only [processManifestLines, hsp, Nat.add_zero]
        exact ⟨alookup_head n _ _, hlt.2⟩
    | succ i' =>
      have hget' : rest.get? i' = some line := by simpa using hget
      have hne : n ≠ n + (i' + 1) := by omega
      have harith : n + 1 + i' = n + (i' + 1) := by omega
      have hrec := ih (n + 1) i' line hget'
      rw [harith] at hrec
      constructor
      · intro hlen
        have hr := hrec.1 hlen
        rcases hsp : splitComma l with _ | ⟨c0, _ | ⟨c1, cr⟩⟩
        · simp only [processManifestLines, hsp]
          exact ⟨(alookup_cons_ne n _ l _ hne).trans hr.1, hr.2⟩
        · simp only [processManifestLines, hsp]
          exact ⟨(alookup_cons_ne n _ l _ hne).trans hr.1, hr.2⟩
        · simp only [processManifestLines, hsp]
          exact ⟨hr.1, (alookup_cons_ne n _ _ _ hne).trans hr.2⟩
      · intro c0 c1 cr hsp'
        have hr := hrec.2 c0 c1 cr hsp'
        rcases hsp : splitComma l with _ | ⟨d0, _ | ⟨d1, dr⟩⟩
        · simp only [processManifestLines, hsp]
          exact ⟨hr.1, (alookup_cons_ne n _ l _ hne).trans hr.2⟩
        · simp only [processManifestLines, hsp]
          exact ⟨hr.1, (alookup_cons_ne n _ l _ hne).trans hr.2⟩
        · simp only [processManifestLines, hsp]
          exact ⟨(alookup_cons_ne n _ _ _ hne).trans hr.1, hr.2⟩

theorem manifest_line_dichotomy_witness :
    alookup (processManifestLines ("200-Stylesheets".toList) [] []
      ["name,style.xml".toList] 1).entries 1
      = some ⟨"style.xml".toList,
          filepathJoin (replaceAll ("200-Stylesheets".toList) [] []) ("style.xml".toList)⟩
    ∧ alookup (processManifestLines ("200-Stylesheets".toList) [] []
      ["name,style.xml".toList] 1).malformed 1 = none :=
  (manifest_line_dichotomy ("200-Stylesheets".toList) [] []
    ["name,style.xml".toList] 1 0 ("name,style.xml".toList) (by decide)).2
    ("name".toList) ("style.xml".toList) [] (by decide)

/-! ## Claim C4 -/

/-- C4 counterexample: with configured scripts `a.bat` (target_os "macos")
followed by `b.sh` (target_os "linux"), the loop of `Run` stops at the
first script.  `b.sh` is never given a result set and never checked, so the
engine does not continue with subsequent configured scripts as claimed. -/
theorem invalid_target_os_counterexample :
    ((runLoop linS [] [] [⟨"a.bat".toList, "macos".toList⟩, ⟨"b.sh".toList, linS⟩]
        initRunState).resultFiles.map Prod.fst = ["a.bat".toList])
    ∧ (runLoop linS [] [] [⟨"a.bat".toList, "macos".toList⟩, ⟨"b.sh".toList, linS⟩]
        initRunState).checks = []
    ∧ (runLoop linS [] [] [⟨"a.bat".toList, "macos".toList⟩, ⟨"b.sh".toList, linS⟩]
        initRunState).targetOSErrors = 1 := by
  decide

/-- C4 (amended): when a configured script's target OS is neither
"windows" nor "linux", the engine logs the error and exits the script loop
entirely (`break`): the offending script's remaining filesystem checks are
skipped, and no subsequent configured script is processed. -/
theorem invalid_target_os_stops_loop (runtimeOS : Str) (flags : List Str)
    (contents : List (Str × List Str)) (s : scriptDefinition)
    (rest : List scriptDefinition) (st : RunState)
    (hw : ¬ (s.TargetOS = winS)) (hl : ¬ (s.TargetOS = linS)) :
    (runLoop runtimeOS flags contents (s :: rest) st).checks = st.checks
    ∧ (runLoop runtimeOS flags contents (s :: rest) st).resultFiles.map Prod.fst
        = s.Filename :: st.resultFiles.map Prod.fst
    ∧ (runLoop runtimeOS flags contents (s :: rest) st).targetOSErrors
        = st.targetOSErrors + 1 := by
  cases hc : (contents.find? (fun p => p.1 = s.Filename)).map Prod.snd with
  | none => simp [runLoop, hc, hw, hl]
  | some ls =>
    cases hcf : checkFileSyntax flags s.TargetOS s.Filename ls st.execs with
    | mk L R => simp [runLoop, hc, hcf, hw, hl]

theorem invalid_target_os_stops_loop_witness :
    (runLoop linS [] [] [⟨"a.bat".toList, "macos".toList⟩] initRunState).checks = []
    ∧ (runLoop linS [] [] [⟨"a.bat".toList, "macos".toList⟩]
        initRunState).resultFiles.map Prod.fst = ["a.bat".toList]
    ∧ (runLoop linS [] [] [⟨"a.bat".toList, "macos".toList⟩]
        initRunState).targetOSErrors = 1 :=
  invalid_target_os_stops_loop linS [] [] ⟨"a.bat".toList, "macos".toList⟩ []
    initRunState (by decide) (by decide)

/-! ## Claim C5 -/

/-- C5: the conversion pair in effect for a script whose target OS equals
the running OS is not reset by `Run` — processing `w.bat` (target windows)
before `l.sh` (target linux) on a linux runtime leaves the stale pair
`("\", "/")` in effect for `l.sh`'s filesystem checks, although
`determinePathConversion` (which `Run` does not consult at this point, but
which the repository's tests pin down) returns the empty pair for the
matching-OS case. -/
theorem matching_os_inherits_stale_conversion :
    (runLoop linS [] [] [⟨"w.bat".toList, winS⟩, ⟨"l.sh".toList, linS⟩]
        initRunState).checks
      = [("l.sh".toList, "\\".toList, "/".toList),
         ("w.bat".toList, "\\".toList, "/".toList)]
    ∧ determinePathConversion linS linS ("l.sh".toList) = Except.ok ([], []) :=
  ⟨by decide, rfl⟩

end TcxValidate
